import Mathlib

/- Shallow embedding of src/index.js (jsautomail): an idempotent
certificate e-mail pipeline.  JavaScript strings are modelled as lists of
characters, the sent-e-mails ledger file as an optional character list
(absent file versus file contents), and the effectful renderer and mail
transport as boolean success oracles; each loop records its observable
per-item events in a trace. -/

abbrev JsString := List Char

/-- Whitespace test backing the model of JavaScript trim. -/
def jsIsSpace (c : Char) : Bool :=
  c == ' ' || c == '\t' || c == '\n' || c == '\r' || c == '\x0b' || c == '\x0c'

/-- Model of String.prototype.trim: drop whitespace from both ends. -/
def jsTrim (s : JsString) : JsString :=
  ((s.dropWhile jsIsSpace).reverse.dropWhile jsIsSpace).reverse

/-- ASCII case mapping of one character, as String.prototype.toLowerCase
acts on ASCII letters. -/
def jsLowerChar (c : Char) : Char :=
  if 65 ≤ c.toNat ∧ c.toNat ≤ 90 then Char.ofNat (c.toNat + 32) else c

/-- Model of String.prototype.toLowerCase. -/
def jsToLower (s : JsString) : JsString := s.map jsLowerChar

/-- Normalisation used both by the dedup filter in lerCSV and by
addSentEmail: toLowerCase followed by trim. -/
def normEmail (e : JsString) : JsString := jsTrim (jsToLower e)

/-- Model of String.prototype.split with separator newline. -/
def splitNl : JsString → List JsString
  | [] => [[]]
  | c :: rest =>
    if c = '\n' then [] :: splitNl rest
    else
      match splitNl rest with
      | [] => [[c]]
      | l :: ls => (c :: l) :: ls

/-- The sent_emails.txt ledger file: none models an absent file, some its
contents. -/
abbrev LedgerFile := Option JsString

/-- Contents an append sees: appendFileSync creates an absent file empty. -/
def ledgerContents : LedgerFile → JsString
  | none => []
  | some data => data

/-- Splitting, blank-line filtering and per-line normalisation applied to
the ledger contents by loadSentEmails (src/index.js lines 22-25). -/
def parseLedger (data : JsString) : List JsString :=
  ((splitNl data).filter (fun e => !(jsTrim e == []))).map (fun e => jsToLower (jsTrim e))

/-- Model of loadSentEmails (src/index.js lines 17-26): an absent file
yields the empty set. -/
def loadSentEmails : LedgerFile → List JsString
  | none => []
  | some data => parseLedger data

/-- Model of addSentEmail (src/index.js lines 32-35): appends the
normalised e-mail plus a newline, creating the file when absent. -/
def addSentEmail (file : LedgerFile) (email : JsString) : LedgerFile :=
  some (ledgerContents file ++ jsTrim (jsToLower email) ++ ['\n'])

/-- One roster record as built in lerCSV (src/index.js lines 184-189). -/
structure Participant where
  code : JsString
  name : JsString
  registration : JsString
  email : JsString
deriving DecidableEq, Repr

/-- Removes one leading double quote, as the anchored regex alternative
does. -/
def dropLeadQuote : JsString → JsString
  | '"' :: r => r
  | s => s

/-- Removes one trailing double quote. -/
def dropTrailQuote (s : JsString) : JsString :=
  (dropLeadQuote s.reverse).reverse

/-- Model of the mapHeaders option of lerCSV (src/index.js line 181):
header.trim() followed by stripping one surrounding quote at each end. -/
def mapHeader (h : JsString) : JsString := dropTrailQuote (dropLeadQuote (jsTrim h))

/-- One parsed CSV data row: its cells keyed by their raw column headers. -/
abbrev CsvRow := List (JsString × JsString)

/-- Reading a column from a csv-parser row object whose keys went through
mapHeaders; an absent column reads as undefined, collapsed to the empty
string (both are falsy and never otherwise inspected downstream). -/
def getCol (row : CsvRow) (key : JsString) : JsString :=
  match row.find? (fun cell => mapHeader cell.1 == key) with
  | some cell => cell.2
  | none => []

/-- Model of the fixed column-name mapping of lerCSV (src/index.js lines
184-189). -/
def rowToParticipant (row : CsvRow) : Participant :=
  { code := getCol row ("Código de Presença".toList)
    name := getCol row ("Nome Completo".toList)
    registration := getCol row ("Matrícula".toList)
    email := getCol row ("Endereço de e-mail".toList) }

/-- Modelled from the spec: the CSV row decoder itself lives in the
external csv-parser dependency, not in the repository source; per the spec
a malformed row is skipped with a warning while the well-formed rows are
parsed.  A raw payload row is some parsed row or none for a malformed one;
decoding returns the parsed rows with the warning count. -/
def decodeRows : List (Option CsvRow) → List CsvRow × Nat
  | [] => ([], 0)
  | none :: rest => ((decodeRows rest).1, (decodeRows rest).2 + 1)
  | some r :: rest => (r :: (decodeRows rest).1, (decodeRows rest).2)

/-- The dedup filter applied on stream end in lerCSV (src/index.js line
193): keep p when p.email is truthy and the normalised e-mail is not in
the loaded set. -/
def filterNew (sentEmails : List JsString) (results : List Participant) : List Participant :=
  results.filter (fun p => !(p.email == []) && !(sentEmails.contains (jsTrim (jsToLower p.email))))

/-- Model of lerCSV (src/index.js lines 168-203): decode the payload rows,
map them to participants, keep only the new ones; also returns the
malformed-row warning count. -/
def lerCSV (file : LedgerFile) (payload : List (Option CsvRow)) : List Participant × Nat :=
  (filterNew (loadSentEmails file) (((decodeRows payload).1).map rowToParticipant),
    (decodeRows payload).2)

/-- The literal placeholder token searched by gerarPDF. -/
def placeholderToken : JsString := "\x7b\x7bparticipant.name\x7d\x7d".toList

/-- First index at which pat occurs in s, as the string replace finds it. -/
def findSeq (pat : JsString) : JsString → Option Nat
  | [] => if pat = [] then some 0 else none
  | c :: rest =>
    if pat.isPrefixOf (c :: rest) then some 0
    else (findSeq pat rest).map (fun i => i + 1)

/-- GetSubstitution for a string replacement in JavaScript replace: a
dollar followed by a dollar yields a literal dollar, by an ampersand the
matched string, by a backquote the part before the match, by a quote the
part after the match; anything else is copied verbatim. -/
def jsSubstitution (matched before after : JsString) : JsString → JsString
  | [] => []
  | c :: r =>
    if c = '$' then
      match r with
      | [] => ['$']
      | d :: r2 =>
        if d = '$' then '$' :: jsSubstitution matched before after r2
        else if d = '&' then matched ++ jsSubstitution matched before after r2
        else if d = '\x60' then before ++ jsSubstitution matched before after r2
        else if d = '\x27' then after ++ jsSubstitution matched before after r2
        else '$' :: jsSubstitution matched before after (d :: r2)
    else c :: jsSubstitution matched before after r

/-- Model of html.replace(pat, repl) with a string pattern: replace the
first occurrence only, interpreting dollar patterns in the replacement. -/
def jsReplace (s pat repl : JsString) : JsString :=
  match findSeq pat s with
  | none => s
  | some i =>
      s.take i ++ jsSubstitution pat (s.take i) (s.drop (i + pat.length)) repl
        ++ s.drop (i + pat.length)

/-- The HTML content gerarPDF renders for a participant (src/index.js
lines 149-150). -/
def renderedHtml (template : JsString) (p : Participant) : JsString :=
  jsReplace template placeholderToken p.name

/-- The deterministic output path built by gerarPDF (src/index.js line
154). -/
def pdfPath (p : Participant) : JsString :=
  "./pdfs/".toList ++ p.name ++ " - (".toList ++ p.email ++ ").pdf".toList

/-- Observable per-item events of the render and dispatch loops. -/
inductive Ev where
  | rendered (name : JsString)
  | renderFailed (name : JsString)
  | sentOk (email : JsString)
  | sendFailed (email : JsString)
  | delayMs (n : Nat)
deriving DecidableEq, Repr

/-- The participant-artifact pair pushed by gerarCertificados. -/
structure Cert where
  participant : Participant
  certificate : JsString
deriving DecidableEq, Repr

/-- Model of gerarCertificados (src/index.js lines 205-225): the renderOk
oracle tells whether gerarPDF succeeds for a participant; a failure is
logged and skipped, a success pushes the artifact. -/
def gerarCertificados (renderOk : Participant → Bool) : List Participant → List Cert × List Ev
  | [] => ([], [])
  | p :: rest =>
    if renderOk p then
      (⟨p, pdfPath p⟩ :: (gerarCertificados renderOk rest).1,
        Ev.rendered p.name :: (gerarCertificados renderOk rest).2)
    else
      ((gerarCertificados renderOk rest).1,
        Ev.renderFailed p.name :: (gerarCertificados renderOk rest).2)

/-- Model of enviarCertificadosPorEmail (src/index.js lines 227-267): the
sendOk oracle tells whether transporter.sendMail succeeds; a success is
followed by the addSentEmail commit and the 1000 ms delay, a failure is
logged and the loop moves on without either. -/
def enviarCertificadosPorEmail (sendOk : Participant → Bool) :
    List Cert → LedgerFile → LedgerFile × List Ev
  | [], file => (file, [])
  | c :: rest, file =>
    if sendOk c.participant then
      ((enviarCertificadosPorEmail sendOk rest (addSentEmail file c.participant.email)).1,
        Ev.sentOk c.participant.email :: Ev.delayMs 1000 ::
          (enviarCertificadosPorEmail sendOk rest (addSentEmail file c.participant.email)).2)
    else
      ((enviarCertificadosPorEmail sendOk rest file).1,
        Ev.sendFailed c.participant.email :: (enviarCertificadosPorEmail sendOk rest file).2)

/-- Result of one run: retained participants, artifacts, final ledger
file, event trace. -/
structure RunResult where
  newParticipants : List Participant
  certificates : List Cert
  ledger : LedgerFile
  trace : List Ev
deriving Repr

/-- Model of one main() run (src/index.js lines 130-279): load the
ledger, read and filter the roster, render, dispatch. -/
def runPipeline (file : LedgerFile) (payload : List (Option CsvRow))
    (renderOk sendOk : Participant → Bool) : RunResult :=
  let newPs := (lerCSV file payload).1
  let gen := gerarCertificados renderOk newPs
  let snd := enviarCertificadosPorEmail sendOk gen.1 file
  ⟨newPs, gen.1, snd.1, gen.2 ++ snd.2⟩

/-- Joins ledger lines into file contents, a newline after each line. -/
def linesJoin (lines : List JsString) : JsString :=
  (lines.map (fun l => l ++ ['\n'])).flatten

/-- E-mails reported as successfully sent in a trace. -/
def sentEvents (t : List Ev) : List JsString :=
  t.filterMap (fun e => match e with | Ev.sentOk a => some a | _ => none)

/-- E-mails for which a send was attempted, successfully or not. -/
def attemptEvents (t : List Ev) : List JsString :=
  t.filterMap (fun e =>
    match e with
    | Ev.sentOk a => some a
    | Ev.sendFailed a => some a
    | _ => none)

/-- Recognises a send attempt event. -/
def isAttempt : Ev → Bool
  | Ev.sentOk _ => true
  | Ev.sendFailed _ => true
  | _ => false

/-- Recognises a delay event. -/
def isDelay : Ev → Bool
  | Ev.delayMs _ => true
  | _ => false

/-- Well-behaved e-mail for idempotence: empty (filtered by truthiness) or
normalising to a nonempty newline-free ledger line. -/
def GoodEmail (p : Participant) : Prop :=
  p.email = [] ∨ (normEmail p.email ≠ [] ∧ '\n' ∉ normEmail p.email)

/-- Well-formed ledger file: absent, or newline-terminated newline-free
lines, as every file produced by addSentEmail appends are. -/
def LedgerWF (f : LedgerFile) : Prop :=
  ∃ L, ledgerContents f = linesJoin L ∧ ∀ l ∈ L, '\n' ∉ l

/-- The retention rule exactly as the spec words it: keep the participants
whose normalised e-mail is absent from the ledger set (for comparison with
the filter of the source, filterNew). -/
def specRetain (sentEmails : List JsString) (results : List Participant) : List Participant :=
  results.filter (fun p => !(sentEmails.contains (jsTrim (jsToLower p.email))))

/-- Holds when no two send attempts are adjacent once only attempts and
delays are kept: between any two consecutive attempts some delay ran. -/
def noAdjacentAttempts : List Ev → Bool
  | [] => true
  | [_] => true
  | a :: b :: rest => !(isAttempt a && isAttempt b) && noAdjacentAttempts (b :: rest)

/-- The rate-limit reading of the claim: every pair of consecutive send
attempts in the trace has a delay between them. -/
def rateLimited (t : List Ev) : Bool :=
  noAdjacentAttempts (t.filter (fun e => isAttempt e || isDelay e))

/-- Every successful send event is immediately followed by the fixed
1000 ms delay event. -/
def sentFollowedByDelay : List Ev → Bool
  | [] => true
  | Ev.sentOk _ :: rest =>
    match rest with
    | Ev.delayMs 1000 :: _ => sentFollowedByDelay rest
    | _ => false
  | _ :: rest => sentFollowedByDelay rest

/-- No failed send event is followed by a delay event. -/
def failedNoDelay : List Ev → Bool
  | [] => true
  | Ev.sendFailed _ :: rest =>
    match rest with
    | Ev.delayMs _ :: _ => false
    | _ => failedNoDelay rest
  | _ :: rest => failedNoDelay rest

/-- Sample well-formed roster row with an ordinary e-mail cell. -/
def goodRow : CsvRow := [("Endereço de e-mail".toList, ['a', '@', 'x'])]

/-- Sample roster row that lacks the e-mail column entirely. -/
def noEmailRow : CsvRow := [("Nome Completo".toList, ['B', 'o', 'b'])]

/-- Sample roster row whose e-mail cell is a single space. -/
def wsRow : CsvRow := [("Endereço de e-mail".toList, [' '])]

/-- Lowercasing an ASCII uppercase letter adds 32 to its code point. -/
lemma jsLowerChar_toNat {c : Char} (h : 65 ≤ c.toNat ∧ c.toNat ≤ 90) :
    (jsLowerChar c).toNat = c.toNat + 32 := by
  have hv : (c.toNat + 32).isValidChar := Or.inl (by omega)
  rw [jsLowerChar, if_pos h, Char.ofNat, dif_pos hv]
  rfl

/-- Lowercasing leaves a character outside the uppercase range alone. -/
lemma jsLowerChar_eq_self {c : Char} (h : ¬(65 ≤ c.toNat ∧ c.toNat ≤ 90)) :
    jsLowerChar c = c := by
  rw [jsLowerChar, if_neg h]

/-- Case mapping a character twice is the same as once. -/
lemma jsLowerChar_idem (c : Char) : jsLowerChar (jsLowerChar c) = jsLowerChar c := by
  by_cases h : 65 ≤ c.toNat ∧ c.toNat ≤ 90
  · have h2 := jsLowerChar_toNat h
    apply jsLowerChar_eq_self
    omega
  · rw [jsLowerChar_eq_self h, jsLowerChar_eq_self h]

/-- A character with a code point above 32 is not whitespace. -/
lemma jsIsSpace_false {c : Char} (h : 33 ≤ c.toNat) : jsIsSpace c = false := by
  have key : ∀ d : Char, d.toNat ≤ 32 → (c == d) = false := by
    intro d hd
    rw [beq_eq_false_iff_ne]
    intro hc
    subst hc
    omega
  rw [jsIsSpace, key ' ' (by decide), key '\t' (by decide), key '\n' (by decide),
    key '\r' (by decide), key '\x0b' (by decide), key '\x0c' (by decide)]
  rfl

/-- Case mapping does not change whether a character is whitespace. -/
lemma jsIsSpace_jsLowerChar (c : Char) : jsIsSpace (jsLowerChar c) = jsIsSpace c := by
  by_cases h : 65 ≤ c.toNat ∧ c.toNat ≤ 90
  · have h2 := jsLowerChar_toNat h
    rw [jsIsSpace_false (by omega : 33 ≤ (jsLowerChar c).toNat),
      jsIsSpace_false (by omega : 33 ≤ c.toNat)]
  · rw [jsLowerChar_eq_self h]

/-- Heads surviving a dropWhile fail the predicate. -/
lemma dropWhile_head?_false {p : Char → Bool} {l : List Char} {c : Char}
    (h : (l.dropWhile p).head? = some c) : p c = false := by
  have hne : l.dropWhile p ≠ [] := by
    intro h0
    rw [h0] at h
    exact absurd h (by simp)
  have h2 := List.head_dropWhile_not p l hne
  rw [List.head?_eq_head hne] at h
  rw [Option.some.inj h] at h2
  exact h2

/-- A list whose head fails the predicate is unchanged by dropWhile. -/
lemma dropWhile_eq_self_of_head? {p : Char → Bool} {l : List Char}
    (h : ∀ c, l.head? = some c → p c = false) : l.dropWhile p = l := by
  cases l with
  | nil => rfl
  | cons a t =>
    rw [List.dropWhile_cons, if_neg]
    rw [h a rfl]
    simp

/-- Trimming a string already trimmed on the left is idempotent. -/
lemma jsTrim_aux {a : List Char} (ha : ∀ c, a.head? = some c → jsIsSpace c = false) :
    jsTrim ((a.reverse.dropWhile jsIsSpace).reverse) = (a.reverse.dropWhile jsIsSpace).reverse := by
  generalize hb : a.reverse.dropWhile jsIsSpace = b
  have hb_head : ∀ c, b.head? = some c → jsIsSpace c = false := by
    intro c hc
    rw [← hb] at hc
    exact dropWhile_head?_false hc
  have hb_last : ∀ c, b.getLast? = some c → jsIsSpace c = false := by
    intro c hc
    have hsplit := List.takeWhile_append_dropWhile jsIsSpace a.reverse
    rw [hb] at hsplit
    have h2 : a.reverse.getLast? = some c := by
      rw [← hsplit, List.getLast?_append, hc]
      rfl
    rw [List.getLast?_reverse] at h2
    exact ha c h2
  have h1 : b.reverse.dropWhile jsIsSpace = b.reverse := by
    apply dropWhile_eq_self_of_head?
    intro c hc
    rw [List.head?_reverse] at hc
    exact hb_last c hc
  rw [jsTrim, h1, List.reverse_reverse, dropWhile_eq_self_of_head? hb_head]

/-- Trimming is idempotent. -/
lemma jsTrim_idem (s : JsString) : jsTrim (jsTrim s) = jsTrim s := by
  have := jsTrim_aux (a := s.dropWhile jsIsSpace)
    (fun c hc => dropWhile_head?_false hc)
  exact this

/-- Trimming commutes with lowercasing. -/
lemma jsTrim_jsToLower_comm (s : JsString) :
    jsTrim (jsToLower s) = jsToLower (jsTrim s) := by
  have hcomp : (jsIsSpace ∘ jsLowerChar) = jsIsSpace := funext jsIsSpace_jsLowerChar
  show ((((s.map jsLowerChar).dropWhile jsIsSpace).reverse).dropWhile jsIsSpace).reverse
      = (((s.dropWhile jsIsSpace).reverse.dropWhile jsIsSpace).reverse).map jsLowerChar
  rw [List.dropWhile_map, hcomp, ← List.map_reverse, List.dropWhile_map, hcomp,
    ← List.map_reverse]

/-- Lowercasing is idempotent. -/
lemma jsToLower_idem (s : JsString) : jsToLower (jsToLower s) = jsToLower s := by
  rw [jsToLower, jsToLower, List.map_map]
  exact List.map_congr_left (fun a _ => jsLowerChar_idem a)

/-- Reloading a committed normalised e-mail yields it back unchanged. -/
lemma normEmail_roundtrip (e : JsString) :
    jsToLower (jsTrim (normEmail e)) = normEmail e := by
  rw [normEmail, jsTrim_idem, ← jsTrim_jsToLower_comm, jsToLower_idem]

/-- Trimming an already normalised e-mail changes nothing. -/
lemma jsTrim_normEmail (e : JsString) : jsTrim (normEmail e) = normEmail e := by
  rw [normEmail, jsTrim_idem]

/-- Splitting never yields the empty list of segments. -/
lemma splitNl_ne_nil (s : JsString) : splitNl s ≠ [] := by
  cases s with
  | nil => simp [splitNl]
  | cons c rest =>
    rw [splitNl]
    by_cases h : c = '\n'
    · simp [h]
    · rw [if_neg h]
      rcases splitNl rest with _ | ⟨l, ls⟩ <;> simp

/-- Splitting after a newline-free line plus its terminator peels off that
line. -/
lemma splitNl_line {e : JsString} (he : '\n' ∉ e) (y : JsString) :
    splitNl (e ++ '\n' :: y) = e :: splitNl y := by
  induction e with
  | nil =>
    show splitNl ('\n' :: y) = [] :: splitNl y
    rw [splitNl, if_pos rfl]
  | cons c e ih =>
    have hc : c ≠ '\n' := fun h => he (h ▸ List.mem_cons_self c e)
    have he2 : '\n' ∉ e := fun h => he (List.mem_cons_of_mem c h)
    show splitNl (c :: (e ++ '\n' :: y)) = (c :: e) :: splitNl y
    rw [splitNl, if_neg hc, ih he2]

/-- Splitting a newline-joined line file recovers the lines plus one empty
trailing segment. -/
lemma splitNl_linesJoin {L : List JsString} (hL : ∀ l ∈ L, '\n' ∉ l) :
    splitNl (linesJoin L) = L ++ [[]] := by
  induction L with
  | nil => rfl
  | cons l ls ih =>
    have h1 : '\n' ∉ l := hL l (List.mem_cons_self l ls)
    have h2 : ∀ x ∈ ls, '\n' ∉ x := fun x hx => hL x (List.mem_cons_of_mem l hx)
    show splitNl ((l ++ ['\n']) ++ linesJoin ls) = (l :: ls) ++ [[]]
    rw [List.append_assoc]
    show splitNl (l ++ '\n' :: linesJoin ls) = (l :: ls) ++ [[]]
    rw [splitNl_line h1, ih h2]
    rfl

/-- Loading is reading the file contents, an absent file reading as empty. -/
lemma loadSentEmails_eq_parse (f : LedgerFile) :
    loadSentEmails f = parseLedger (ledgerContents f) := by
  cases f <;> rfl

/-- Parsing a newline-joined line file filters the blank lines and
normalises the rest. -/
lemma parseLedger_linesJoin {L : List JsString} (hL : ∀ l ∈ L, '\n' ∉ l) :
    parseLedger (linesJoin L) =
      (L.filter (fun l => !(jsTrim l == []))).map (fun l => jsToLower (jsTrim l)) := by
  rw [parseLedger, splitNl_linesJoin hL, List.filter_append]
  simp [jsTrim]

/-- Appending to the ledger appends one normalised line to its contents. -/
lemma ledgerContents_addSentEmail (f : LedgerFile) (e : JsString) :
    ledgerContents (addSentEmail f e) = ledgerContents f ++ normEmail e ++ ['\n'] := by
  rfl

/-- Joining lines distributes over append. -/
lemma linesJoin_append (L1 L2 : List JsString) :
    linesJoin (L1 ++ L2) = linesJoin L1 ++ linesJoin L2 := by
  rw [linesJoin, List.map_append, List.flatten_append]
  rfl

/-- The artifacts produced by the render loop are exactly the
participants whose render succeeded, in order, each paired with its
deterministic path. -/
lemma gerar_fst (renderOk : Participant → Bool) (ps : List Participant) :
    (gerarCertificados renderOk ps).1 =
      (ps.filter renderOk).map (fun p => ⟨p, pdfPath p⟩) := by
  induction ps with
  | nil => rfl
  | cons p rest ih =>
    rw [gerarCertificados]
    by_cases h : renderOk p
    · rw [if_pos h, ih, List.filter_cons, if_pos h]
      rfl
    · rw [if_neg h, ih, List.filter_cons, if_neg h]

/-- The render loop emits one event per participant: a success or a
failure event, in roster order. -/
lemma gerar_snd (renderOk : Participant → Bool) (ps : List Participant) :
    (gerarCertificados renderOk ps).2 =
      ps.map (fun p => if renderOk p then Ev.rendered p.name else Ev.renderFailed p.name) := by
  induction ps with
  | nil => rfl
  | cons p rest ih =>
    rw [gerarCertificados]
    by_cases h : renderOk p
    · rw [if_pos h, ih]
      simp [h]
    · rw [if_neg h, ih]
      simp [h]

/-- The dispatch trace does not depend on the incoming ledger file and is
the concatenation of the per-recipient event blocks. -/
lemma enviar_trace (sendOk : Participant → Bool) (certs : List Cert) (file : LedgerFile) :
    (enviarCertificadosPorEmail sendOk certs file).2 =
      certs.flatMap (fun c =>
        if sendOk c.participant then [Ev.sentOk c.participant.email, Ev.delayMs 1000]
        else [Ev.sendFailed c.participant.email]) := by
  induction certs generalizing file with
  | nil => rfl
  | cons c rest ih =>
    rw [enviarCertificadosPorEmail]
    by_cases h : sendOk c.participant
    · rw [if_pos h]
      simp only [List.flatMap_cons, if_pos h, ih]
      rfl
    · rw [if_neg h]
      simp only [List.flatMap_cons, if_neg h, ih]
      rfl

/-- The final ledger contents are the initial contents plus one
normalised line for each successfully sent recipient, in send order. -/
lemma enviar_ledger (sendOk : Participant → Bool) (certs : List Cert) (file : LedgerFile) :
    ledgerContents (enviarCertificadosPorEmail sendOk certs file).1 =
      ledgerContents file ++
        linesJoin ((certs.filter (fun c => sendOk c.participant)).map
          (fun c => normEmail c.participant.email)) := by
  induction certs generalizing file with
  | nil => simp [enviarCertificadosPorEmail, linesJoin]
  | cons c rest ih =>
    rw [enviarCertificadosPorEmail]
    by_cases h : sendOk c.participant
    · rw [if_pos h]
      show ledgerContents (enviarCertificadosPorEmail sendOk rest
          (addSentEmail file c.participant.email)).1 = _
      rw [ih, ledgerContents_addSentEmail, List.filter_cons, if_pos h, List.map_cons]
      show _ = ledgerContents file ++ linesJoin ([normEmail c.participant.email] ++ _)
      rw [linesJoin_append]
      simp [linesJoin]
    · rw [if_neg h]
      show ledgerContents (enviarCertificadosPorEmail sendOk rest file).1 = _
      rw [ih, List.filter_cons, if_neg h]

/-- Every recipient in the artifact list gets a send attempt, in order,
regardless of earlier failures. -/
lemma attemptEvents_enviar (sendOk : Participant → Bool) (certs : List Cert) (file : LedgerFile) :
    attemptEvents (enviarCertificadosPorEmail sendOk certs file).2 =
      certs.map (fun c => c.participant.email) := by
  rw [enviar_trace]
  induction certs with
  | nil => rfl
  | cons c rest ih =>
    rw [List.flatMap_cons]
    by_cases h : sendOk c.participant
    · rw [if_pos h]
      show attemptEvents (Ev.sentOk c.participant.email :: Ev.delayMs 1000 :: _) = _
      rw [attemptEvents, List.filterMap_cons, List.filterMap_cons]
      simpa [attemptEvents] using ih
    · rw [if_neg h]
      show attemptEvents (Ev.sendFailed c.participant.email :: _) = _
      rw [attemptEvents, List.filterMap_cons]
      simpa [attemptEvents] using ih

/-- The successfully sent recipients are exactly those whose transport
send succeeded, in order. -/
lemma sentEvents_enviar (sendOk : Participant → Bool) (certs : List Cert) (file : LedgerFile) :
    sentEvents (enviarCertificadosPorEmail sendOk certs file).2 =
      (certs.filter (fun c => sendOk c.participant)).map (fun c => c.participant.email) := by
  rw [enviar_trace]
  induction certs with
  | nil => rfl
  | cons c rest ih =>
    rw [List.flatMap_cons, List.filter_cons]
    by_cases h : sendOk c.participant
    · rw [if_pos h, if_pos h]
      show sentEvents (Ev.sentOk c.participant.email :: Ev.delayMs 1000 :: _) = _
      rw [sentEvents, List.filterMap_cons, List.filterMap_cons]
      simpa [sentEvents] using ih
    · rw [if_neg h, if_neg h]
      show sentEvents (Ev.sendFailed c.participant.email :: _) = _
      rw [sentEvents, List.filterMap_cons]
      simpa [sentEvents] using ih

/-- The render loop makes no send attempts. -/
lemma attemptEvents_gerar (renderOk : Participant → Bool) (ps : List Participant) :
    attemptEvents (gerarCertificados renderOk ps).2 = [] := by
  rw [gerar_snd]
  induction ps with
  | nil => rfl
  | cons p rest ih =>
    rw [List.map_cons]
    by_cases h : renderOk p
    · rw [if_pos h]
      rw [attemptEvents, List.filterMap_cons]
      simpa [attemptEvents] using ih
    · rw [if_neg h]
      rw [attemptEvents, List.filterMap_cons]
      simpa [attemptEvents] using ih

/-- Membership in a contains test, through the lawful BEq instance. -/
lemma contains_iff_mem (l : List JsString) (a : JsString) :
    l.contains a = true ↔ a ∈ l := by
  simp [List.contains, List.elem_iff]

/-- Parsing distributes over an append of two line files. -/
lemma parseLedger_linesJoin_append {L1 L2 : List JsString}
    (h1 : ∀ l ∈ L1, '\n' ∉ l) (h2 : ∀ l ∈ L2, '\n' ∉ l) :
    parseLedger (linesJoin (L1 ++ L2)) =
      parseLedger (linesJoin L1) ++ parseLedger (linesJoin L2) := by
  have h12 : ∀ l ∈ L1 ++ L2, '\n' ∉ l := by
    intro l hl
    rcases List.mem_append.mp hl with h | h
    · exact h1 l h
    · exact h2 l h
  rw [parseLedger_linesJoin h12, parseLedger_linesJoin h1, parseLedger_linesJoin h2,
    List.filter_append, List.map_append]

/-- A nonempty normalised e-mail recorded as a ledger line is recovered by
a reload. -/
lemma mem_parseLedger_entry {L : List JsString} (hL : ∀ l ∈ L, '\n' ∉ l)
    {e : JsString} (he : normEmail e ∈ L) (hne : normEmail e ≠ []) :
    normEmail e ∈ parseLedger (linesJoin L) := by
  rw [parseLedger_linesJoin hL]
  apply List.mem_map.mpr
  refine ⟨normEmail e, ?_, normEmail_roundtrip e⟩
  apply List.mem_filter.mpr
  refine ⟨he, ?_⟩
  simp [jsTrim_normEmail, hne]

/-- The loaded dedup set never contains the empty string: blank lines are
filtered out and normalisation keeps nonempty lines nonempty. -/
lemma nil_not_mem_parseLedger (d : JsString) : [] ∉ parseLedger d := by
  rw [parseLedger]
  intro h
  rcases List.mem_map.mp h with ⟨l, hl, hmap⟩
  rcases List.mem_filter.mp hl with ⟨_, hpred⟩
  have hne : jsTrim l ≠ [] := by simpa using hpred
  exact hne (List.map_eq_nil_iff.mp hmap)

/-- An all-whitespace e-mail normalises to the empty string. -/
lemma normEmail_of_all_space {e : JsString} (h : ∀ c ∈ e, jsIsSpace c = true) :
    normEmail e = [] := by
  have hlow : jsToLower e = e := by
    rw [jsToLower]
    conv_rhs => rw [← List.map_id e]
    apply List.map_congr_left
    intro c hc
    show jsLowerChar c = c
    apply jsLowerChar_eq_self
    have hs := h c hc
    intro hup
    have : jsIsSpace c = false := jsIsSpace_false (by omega)
    rw [hs] at this
    exact absurd this (by simp)
  rw [normEmail, hlow, jsTrim]
  have hd : e.dropWhile jsIsSpace = [] := List.dropWhile_eq_nil_iff.mpr h
  rw [hd]
  rfl

lemma runPipeline_newParticipants (f : LedgerFile) (payload : List (Option CsvRow))
    (r s : Participant → Bool) :
    (runPipeline f payload r s).newParticipants = (lerCSV f payload).1 := rfl

lemma runPipeline_certificates (f : LedgerFile) (payload : List (Option CsvRow))
    (r s : Participant → Bool) :
    (runPipeline f payload r s).certificates =
      (gerarCertificados r (lerCSV f payload).1).1 := rfl

lemma runPipeline_ledger (f : LedgerFile) (payload : List (Option CsvRow))
    (r s : Participant → Bool) :
    (runPipeline f payload r s).ledger =
      (enviarCertificadosPorEmail s (gerarCertificados r (lerCSV f payload).1).1 f).1 := rfl

lemma runPipeline_trace (f : LedgerFile) (payload : List (Option CsvRow))
    (r s : Participant → Bool) :
    (runPipeline f payload r s).trace =
      (gerarCertificados r (lerCSV f payload).1).2 ++
        (enviarCertificadosPorEmail s (gerarCertificados r (lerCSV f payload).1).1 f).2 := rfl

/-- Membership characterisation of the dedup filter: retained exactly when
present in the roster with a truthy e-mail whose normalisation is not in
the loaded set. -/
lemma mem_filterNew {sent : List JsString} {rs : List Participant} {p : Participant} :
    p ∈ filterNew sent rs ↔
      p ∈ rs ∧ p.email ≠ [] ∧ jsTrim (jsToLower p.email) ∉ sent := by
  rw [filterNew, List.mem_filter]
  simp [contains_iff_mem, and_assoc]

/-- Core idempotence step: with a well-formed ledger, well-behaved
e-mails, and run 1 fully succeeding, the filter of run 2 retains
nobody. -/
lemma filterNew_after_run_nil
    (file : LedgerFile) (payload : List (Option CsvRow))
    (renderOk sendOk : Participant → Bool)
    (hwf : LedgerWF file)
    (hgood : ∀ p ∈ ((decodeRows payload).1).map rowToParticipant, GoodEmail p)
    (hrender : ∀ p, renderOk p = true)
    (hsend : ∀ p, sendOk p = true) :
    (lerCSV (runPipeline file payload renderOk sendOk).ledger payload).1 = [] := by
  rcases hwf with ⟨L0, hL0, hL0nl⟩
  set results := ((decodeRows payload).1).map rowToParticipant with hres
  set newPs := filterNew (loadSentEmails file) results with hnew
  have hler1 : (lerCSV file payload).1 = newPs := rfl
  have hnew_sub : ∀ p ∈ newPs, p ∈ results := by
    intro p hp
    exact (List.mem_filter.mp hp).1
  set E := newPs.map (fun p => normEmail p.email) with hE
  have hEnl : ∀ l ∈ E, '\n' ∉ l := by
    intro l hl
    rcases List.mem_map.mp hl with ⟨p, hp, hpl⟩
    rcases hgood p (hnew_sub p hp) with hemp | ⟨_, hnl⟩
    · subst hpl
      rw [hemp]
      exact List.not_mem_nil '\n'
    · subst hpl
      exact hnl
  have hLEnl : ∀ l ∈ L0 ++ E, '\n' ∉ l := by
    intro l hl
    rcases List.mem_append.mp hl with h | h
    · exact hL0nl l h
    · exact hEnl l h
  have hledger : ledgerContents (runPipeline file payload renderOk sendOk).ledger =
      linesJoin (L0 ++ E) := by
    rw [runPipeline_ledger, enviar_ledger, hL0, ← linesJoin_append]
    congr 2
    rw [hler1, gerar_fst, List.filter_eq_self.mpr (fun p _ => hrender p),
      List.filter_eq_self.mpr (fun c _ => hsend (Cert.participant c)), List.map_map]
    rfl
  have hload2 : loadSentEmails (runPipeline file payload renderOk sendOk).ledger =
      parseLedger (linesJoin (L0 ++ E)) := by
    rw [loadSentEmails_eq_parse, hledger]
  show filterNew (loadSentEmails (runPipeline file payload renderOk sendOk).ledger) results = []
  rw [List.eq_nil_iff_forall_not_mem]
  intro p hp
  rw [mem_filterNew, hload2] at hp
  obtain ⟨hpres, hpemail, hnotin⟩ := hp
  apply hnotin
  show normEmail p.email ∈ parseLedger (linesJoin (L0 ++ E))
  rcases hgood p hpres with hemp | ⟨hne, hnl⟩
  · exact absurd hemp hpemail
  by_cases hp1 : p ∈ newPs
  · exact mem_parseLedger_entry hLEnl
      (List.mem_append_right L0 (List.mem_map.mpr ⟨p, hp1, rfl⟩)) hne
  · have hkey : jsTrim (jsToLower p.email) ∈ loadSentEmails file := by
      by_contra hk
      exact hp1 (mem_filterNew.mpr ⟨hpres, hpemail, hk⟩)
    rw [loadSentEmails_eq_parse, hL0] at hkey
    rw [parseLedger_linesJoin_append hL0nl hEnl]
    exact List.mem_append_left _ hkey

/-- Decoding a block of well-formed rows prepends them to the rest. -/
lemma decodeRows_map_some (v : List CsvRow) (rest : List (Option CsvRow)) :
    decodeRows (v.map some ++ rest) = (v ++ (decodeRows rest).1, (decodeRows rest).2) := by
  induction v with
  | nil => rfl
  | cons r vr ih =>
    show decodeRows (some r :: (vr.map some ++ rest)) = _
    rw [decodeRows, ih]
    rfl

/-- Decoding only well-formed rows yields them all with no warning. -/
lemma decodeRows_all_some (v : List CsvRow) : decodeRows (v.map some) = (v, 0) := by
  have h := decodeRows_map_some v []
  simpa [decodeRows] using h

/-- A dollar-free replacement string passes through GetSubstitution
verbatim. -/
lemma jsSubstitution_no_dollar {repl : JsString} (h : '$' ∉ repl)
    (m b a : JsString) : jsSubstitution m b a repl = repl := by
  induction repl with
  | nil => rfl
  | cons c r ih =>
    have hc : c ≠ '$' := fun hh => h (hh ▸ List.mem_cons_self c r)
    conv_lhs => rw [jsSubstitution.eq_def]
    simp only [if_neg hc]
    rw [ih (fun hh => h (List.mem_cons_of_mem c hh))]

/-- When no occurrence of the pattern starts inside the leading segment,
the search finds the occurrence right after it. -/
lemma findSeq_append (pat a b : JsString)
    (hfirst : ∀ i < a.length, pat.isPrefixOf ((a ++ pat ++ b).drop i) = false) :
    findSeq pat (a ++ pat ++ b) = some a.length := by
  induction a with
  | nil =>
    show findSeq pat (pat ++ b) = some 0
    cases hs : pat ++ b with
    | nil =>
      have hpat : pat = [] := by
        rcases List.append_eq_nil.mp hs with ⟨h1, _⟩
        exact h1
      rw [hpat]
      rfl
    | cons c rest =>
      rw [findSeq, if_pos]
      rw [← hs]
      exact List.isPrefixOf_iff_prefix.mpr (List.prefix_append pat b)
  | cons c a' ih =>
    have h0 := hfirst 0 (by simp)
    simp only [List.drop_zero] at h0
    show findSeq pat (c :: (a' ++ pat ++ b)) = some (a'.length + 1)
    rw [findSeq]
    rw [if_neg (by
      intro hk
      rw [show c :: (a' ++ pat ++ b) = (c :: a') ++ pat ++ b by rfl] at hk
      rw [h0] at hk
      exact absurd hk (by simp))]
    rw [ih (fun i hi => by
      have := hfirst (i + 1) (by simpa using Nat.succ_lt_succ hi)
      simpa using this)]
    rfl

/-- Replacement at the first occurrence splits the string around it. -/
lemma jsReplace_first (pat a b repl : JsString)
    (hfirst : ∀ i < a.length, pat.isPrefixOf ((a ++ pat ++ b).drop i) = false)
    (hrepl : '$' ∉ repl) :
    jsReplace (a ++ pat ++ b) pat repl = a ++ repl ++ b := by
  rw [jsReplace, findSeq_append pat a b hfirst]
  have htake : (a ++ pat ++ b).take a.length = a := by
    rw [List.append_assoc]
    exact List.take_left a (pat ++ b)
  have hdrop : (a ++ pat ++ b).drop (a.length + pat.length) = b :=
    List.drop_left' (List.length_append a pat)
  show (a ++ pat ++ b).take a.length ++
      jsSubstitution pat ((a ++ pat ++ b).take a.length)
        ((a ++ pat ++ b).drop (a.length + pat.length)) repl ++
      (a ++ pat ++ b).drop (a.length + pat.length) = a ++ repl ++ b
  rw [htake, hdrop, jsSubstitution_no_dollar hrepl]

/-- Attempt extraction distributes over trace concatenation. -/
lemma attemptEvents_append (x y : List Ev) :
    attemptEvents (x ++ y) = attemptEvents x ++ attemptEvents y := by
  rw [attemptEvents, attemptEvents, attemptEvents, List.filterMap_append]

/-- A dispatch trace never begins with a delay event. -/
lemma enviar_trace_no_lead_delay (sendOk : Participant → Bool) (certs : List Cert)
    (file : LedgerFile) (n : Nat) (t : List Ev)
    (h : (enviarCertificadosPorEmail sendOk certs file).2 = Ev.delayMs n :: t) : False := by
  cases certs with
  | nil => exact absurd h (by simp [enviarCertificadosPorEmail])
  | cons c rest =>
    rw [enviarCertificadosPorEmail] at h
    by_cases hs : sendOk c.participant
    · rw [if_pos hs] at h
      exact absurd h (by simp)
    · rw [if_neg hs] at h
      exact absurd h (by simp)

/-- In every dispatch trace each success is immediately followed by the
fixed 1000 ms delay. -/
lemma sentFollowedByDelay_enviar (sendOk : Participant → Bool) (certs : List Cert)
    (file : LedgerFile) :
    sentFollowedByDelay (enviarCertificadosPorEmail sendOk certs file).2 = true := by
  induction certs generalizing file with
  | nil => rfl
  | cons c rest ih =>
    rw [enviarCertificadosPorEmail]
    by_cases hs : sendOk c.participant
    · rw [if_pos hs]
      show sentFollowedByDelay (Ev.sentOk c.participant.email :: Ev.delayMs 1000 :: _) = true
      show sentFollowedByDelay (Ev.delayMs 1000 :: _) = true
      show sentFollowedByDelay (enviarCertificadosPorEmail sendOk rest
        (addSentEmail file c.participant.email)).2 = true
      exact ih _
    · rw [if_neg hs]
      show sentFollowedByDelay (enviarCertificadosPorEmail sendOk rest file).2 = true
      exact ih _

/-- In every dispatch trace no failure is followed by a delay: the loop
moves straight to the next recipient. -/
lemma failedNoDelay_enviar (sendOk : Participant → Bool) (certs : List Cert)
    (file : LedgerFile) :
    failedNoDelay (enviarCertificadosPorEmail sendOk certs file).2 = true := by
  induction certs generalizing file with
  | nil => rfl
  | cons c rest ih =>
    rw [enviarCertificadosPorEmail]
    by_cases hs : sendOk c.participant
    · rw [if_pos hs]
      show failedNoDelay (Ev.sentOk c.participant.email :: Ev.delayMs 1000 :: _) = true
      show failedNoDelay (Ev.delayMs 1000 :: _) = true
      show failedNoDelay (enviarCertificadosPorEmail sendOk rest
        (addSentEmail file c.participant.email)).2 = true
      exact ih _
    · rw [if_neg hs]
      show failedNoDelay (Ev.sendFailed c.participant.email ::
        (enviarCertificadosPorEmail sendOk rest file).2) = true
      rcases ht : (enviarCertificadosPorEmail sendOk rest file).2 with _ | ⟨hd, tl⟩
      · rfl
      · cases hd with
        | delayMs n => exact absurd ht (fun hh => enviar_trace_no_lead_delay sendOk rest file n tl hh)
        | rendered a =>
          show failedNoDelay (Ev.rendered a :: tl) = true
          rw [← ht]
          exact ih _
        | renderFailed a =>
          show failedNoDelay (Ev.renderFailed a :: tl) = true
          rw [← ht]
          exact ih _
        | sentOk a =>
          show failedNoDelay (Ev.sentOk a :: tl) = true
          rw [← ht]
          exact ih _
        | sendFailed a =>
          show failedNoDelay (Ev.sendFailed a :: tl) = true
          rw [← ht]
          exact ih _

/-- C3: a recipient is committed to the ledger exactly when the transport
reported a successful send: the final ledger contents are the initial
contents plus one normalised line per successful send, in order, and the
successful-send events list those same recipients; a recipient whose send
fails contributes no ledger line. -/
theorem claim_C3_ledger_commit_invariant (sendOk : Participant → Bool)
    (certs : List Cert) (file : LedgerFile) :
    ledgerContents (enviarCertificadosPorEmail sendOk certs file).1 =
      ledgerContents file ++
        linesJoin ((certs.filter (fun c => sendOk c.participant)).map
          (fun c => normEmail c.participant.email)) ∧
    sentEvents (enviarCertificadosPorEmail sendOk certs file).2 =
      (certs.filter (fun c => sendOk c.participant)).map (fun c => c.participant.email) :=
  ⟨enviar_ledger sendOk certs file, sentEvents_enviar sendOk certs file⟩

/-- C7 (amended): a fixed 1000 ms delay is enforced after every
successful send attempt before anything further happens, but after a
failed attempt the loop proceeds to the next recipient with no delay. -/
theorem claim_C7_delay_after_success_only (sendOk : Participant → Bool)
    (certs : List Cert) (file : LedgerFile) :
    sentFollowedByDelay (enviarCertificadosPorEmail sendOk certs file).2 = true ∧
    failedNoDelay (enviarCertificadosPorEmail sendOk certs file).2 = true :=
  ⟨sentFollowedByDelay_enviar sendOk certs file, failedNoDelay_enviar sendOk certs file⟩

/-- C7 counterexample: in a two-recipient batch whose first send fails,
the failed attempt and the following attempt are consecutive with no
delay between them, so the claimed delay between every pair of
consecutive attempts does not hold. -/
theorem claim_C7_counterexample :
    rateLimited (enviarCertificadosPorEmail (fun p => p.email == ['b'])
      [⟨⟨[], [], [], ['a']⟩, []⟩, ⟨⟨[], [], [], ['b']⟩, []⟩] none).2 = false := by
  decide

/-- C9: loading an absent ledger file yields the empty set rather than an
error, and a run over an absent ledger filters the roster only on e-mail
truthiness (the dedup set excludes nobody). -/
theorem claim_C9_absent_ledger_empty_set :
    loadSentEmails (none : LedgerFile) = [] ∧
    ∀ payload renderOk sendOk,
      (runPipeline none payload renderOk sendOk).newParticipants =
        (((decodeRows payload).1).map rowToParticipant).filter (fun p => !(p.email == [])) := by
  refine ⟨rfl, ?_⟩
  intro payload renderOk sendOk
  rw [runPipeline_newParticipants]
  show filterNew (loadSentEmails none) _ = _
  rw [filterNew]
  apply List.filter_congr
  intro p _
  show (!(p.email == []) && !(List.contains [] (jsTrim (jsToLower p.email)))) = !(p.email == [])
  simp [List.contains, List.elem]

/-- C4: in a batch of three participants whose middle render fails, the
other two are still rendered and handed to dispatch with the failure
showing up as a render-failure event only; and in any artifact list every
recipient gets a send attempt regardless of earlier delivery failures. -/
theorem claim_C4_partial_failure_isolation
    (A B C : Participant) (renderOk sendOk : Participant → Bool) (file : LedgerFile)
    (hA : renderOk A = true) (hB : renderOk B = false) (hC : renderOk C = true) :
    (gerarCertificados renderOk [A, B, C]).1 = [⟨A, pdfPath A⟩, ⟨C, pdfPath C⟩] ∧
    (gerarCertificados renderOk [A, B, C]).2 =
      [Ev.rendered A.name, Ev.renderFailed B.name, Ev.rendered C.name] ∧
    attemptEvents (enviarCertificadosPorEmail sendOk
      (gerarCertificados renderOk [A, B, C]).1 file).2 = [A.email, C.email] ∧
    (∀ certs2 file2, attemptEvents (enviarCertificadosPorEmail sendOk certs2 file2).2 =
      certs2.map (fun c => c.participant.email)) := by
  have h1 : (gerarCertificados renderOk [A, B, C]).1 = [⟨A, pdfPath A⟩, ⟨C, pdfPath C⟩] := by
    rw [gerar_fst]
    simp [List.filter, hA, hB, hC]
  refine ⟨h1, ?_, ?_, fun certs2 file2 => attemptEvents_enviar sendOk certs2 file2⟩
  · rw [gerar_snd]
    simp [hA, hB, hC]
  · rw [h1, attemptEvents_enviar]
    rfl

/-- C4 witness: a concrete three-participant batch where only the render
of the middle participant fails. -/
theorem claim_C4_witness :
    (gerarCertificados (fun p => !(p.name == ['B']))
      [⟨[], ['A'], [], ['a']⟩, ⟨[], ['B'], [], ['b']⟩, ⟨[], ['C'], [], ['c']⟩]).1 =
      [⟨⟨[], ['A'], [], ['a']⟩, pdfPath ⟨[], ['A'], [], ['a']⟩⟩,
       ⟨⟨[], ['C'], [], ['c']⟩, pdfPath ⟨[], ['C'], [], ['c']⟩⟩] ∧
    (gerarCertificados (fun p => !(p.name == ['B']))
      [⟨[], ['A'], [], ['a']⟩, ⟨[], ['B'], [], ['b']⟩, ⟨[], ['C'], [], ['c']⟩]).2 =
      [Ev.rendered ['A'], Ev.renderFailed ['B'], Ev.rendered ['C']] ∧
    attemptEvents (enviarCertificadosPorEmail (fun _ => true)
      (gerarCertificados (fun p => !(p.name == ['B']))
        [⟨[], ['A'], [], ['a']⟩, ⟨[], ['B'], [], ['b']⟩, ⟨[], ['C'], [], ['c']⟩]).1 none).2 =
      [['a'], ['c']] := by
  have h := claim_C4_partial_failure_isolation
    ⟨[], ['A'], [], ['a']⟩ ⟨[], ['B'], [], ['b']⟩ ⟨[], ['C'], [], ['c']⟩
    (fun p => !(p.name == ['B'])) (fun _ => true) none
    (by decide) (by decide) (by decide)
  exact ⟨h.1, h.2.1, h.2.2.1⟩

/-- C5: a payload with one malformed row among well-formed rows yields the
same retained participants as the payload without the malformed row, with
exactly one extra skipped-row warning; the fetch is not aborted. -/
theorem claim_C5_malformed_row_skipped
    (va vb : List CsvRow) (file : LedgerFile) :
    lerCSV file (va.map some ++ none :: vb.map some) =
      ((lerCSV file ((va ++ vb).map some)).1,
        (lerCSV file ((va ++ vb).map some)).2 + 1) := by
  have hdec : decodeRows (va.map some ++ none :: vb.map some) = (va ++ vb, 1) := by
    rw [decodeRows_map_some]
    rw [show (none :: vb.map some : List (Option CsvRow)) = [none] ++ vb.map some by rfl]
    rw [show ([none] ++ vb.map some : List (Option CsvRow)) = none :: vb.map some by rfl]
    rw [decodeRows, decodeRows_all_some]
  have hdec2 : decodeRows ((va ++ vb).map some) = (va ++ vb, 0) := decodeRows_all_some _
  rw [lerCSV, lerCSV, hdec, hdec2]

/-- C6: a row lacking the e-mail column parses to a participant with an
empty e-mail string, the surrounding rows still parse and are filtered
normally, and that participant is never retained for dispatch. -/
theorem claim_C6_missing_email_column
    (rowsA rowsB : List CsvRow) (row : CsvRow) (file : LedgerFile)
    (hrow : row.find? (fun cell => mapHeader cell.1 ==
      ("Endereço de e-mail".toList : JsString)) = none) :
    (rowToParticipant row).email = [] ∧
    ((decodeRows ((rowsA ++ row :: rowsB).map some)).1).map rowToParticipant =
      rowsA.map rowToParticipant ++ rowToParticipant row :: rowsB.map rowToParticipant ∧
    (lerCSV file ((rowsA ++ row :: rowsB).map some)).1 =
      (lerCSV file (rowsA.map some)).1 ++ (lerCSV file (rowsB.map some)).1 ∧
    rowToParticipant row ∉ (lerCSV file ((rowsA ++ row :: rowsB).map some)).1 := by
  have hemail : (rowToParticipant row).email = [] := by
    show getCol row ("Endereço de e-mail".toList) = []
    rw [getCol, hrow]
  have hdec : ∀ v : List CsvRow, decodeRows (v.map some) = (v, 0) := decodeRows_all_some
  refine ⟨hemail, ?_, ?_, ?_⟩
  · rw [hdec]
    rw [List.map_append, List.map_cons]
  · rw [lerCSV, lerCSV, lerCSV, hdec, hdec, hdec]
    show filterNew _ ((rowsA ++ row :: rowsB).map rowToParticipant) = _
    rw [List.map_append, List.map_cons, filterNew, List.filter_append, List.filter_cons]
    rw [if_neg (by
      rw [hemail]
      simp)]
    rfl
  · intro hmem
    rw [lerCSV] at hmem
    have := (mem_filterNew.mp hmem).2.1
    exact this hemail

/-- C6 witness: a concrete payload of one valid row and one row without
the e-mail column. -/
theorem claim_C6_witness :
    (rowToParticipant noEmailRow).email = [] ∧
    ((decodeRows (([goodRow] ++ noEmailRow :: []).map some)).1).map rowToParticipant =
      [goodRow].map rowToParticipant ++
        rowToParticipant noEmailRow :: ([] : List CsvRow).map rowToParticipant ∧
    (lerCSV none (([goodRow] ++ noEmailRow :: []).map some)).1 =
      (lerCSV none ([goodRow].map some)).1 ++ (lerCSV none (([] : List CsvRow).map some)).1 ∧
    rowToParticipant noEmailRow ∉ (lerCSV none (([goodRow] ++ noEmailRow :: []).map some)).1 :=
  claim_C6_missing_email_column [goodRow] [] noEmailRow none (by decide)

/-- C8 (amended): rendering against a template in which the placeholder
token first occurs after a token-free leading segment substitutes the
token once by the participant name verbatim, provided the name contains
no dollar replacement pattern; the output path is the fixed concatenation
of name and e-mail, so renders of participants with the same name and
e-mail land on the same path (overwrite, not accumulate). -/
theorem claim_C8_render_naming_substitution
    (a b : JsString) (p : Participant)
    (hfirst : ∀ i < a.length,
      placeholderToken.isPrefixOf ((a ++ placeholderToken ++ b).drop i) = false)
    (hname : '$' ∉ p.name) :
    renderedHtml (a ++ placeholderToken ++ b) p = a ++ p.name ++ b ∧
    pdfPath p = "./pdfs/".toList ++ p.name ++ " - (".toList ++ p.email ++ ").pdf".toList ∧
    (∀ q : Participant, q.name = p.name → q.email = p.email → pdfPath q = pdfPath p) := by
  refine ⟨?_, rfl, ?_⟩
  · show jsReplace (a ++ placeholderToken ++ b) placeholderToken p.name = a ++ p.name ++ b
    exact jsReplace_first placeholderToken a b p.name hfirst hname
  · intro q h1 h2
    rw [pdfPath, pdfPath, h1, h2]

/-- C8 counterexample: a name consisting of the dollar-ampersand
replacement pattern is not substituted verbatim; JavaScript replace
re-inserts the matched token instead. -/
theorem claim_C8_counterexample :
    renderedHtml ("X\x7b\x7bparticipant.name\x7d\x7dY".toList) ⟨[], ['$', '&'], [], []⟩ =
      "X\x7b\x7bparticipant.name\x7d\x7dY".toList ∧
    renderedHtml ("X\x7b\x7bparticipant.name\x7d\x7dY".toList) ⟨[], ['$', '&'], [], []⟩ ≠
      "X".toList ++ ['$', '&'] ++ "Y".toList := by
  refine ⟨by decide, by decide⟩

/-- C8 witness: the Ana Silva example of the spec, rendered against a
template with one placeholder occurrence. -/
theorem claim_C8_witness :
    renderedHtml ("<h1>".toList ++ placeholderToken ++ "</h1>".toList)
        ⟨[], "Ana Silva".toList, [], "ana@x.com".toList⟩ =
      "<h1>".toList ++ "Ana Silva".toList ++ "</h1>".toList ∧
    pdfPath ⟨[], "Ana Silva".toList, [], "ana@x.com".toList⟩ =
      "./pdfs/Ana Silva - (ana@x.com).pdf".toList := by
  have h := claim_C8_render_naming_substitution ("<h1>".toList) ("</h1>".toList)
    ⟨[], "Ana Silva".toList, [], "ana@x.com".toList⟩ (by decide) (by decide)
  refine ⟨h.1, ?_⟩
  rw [h.2.1]
  decide

/-- C10: a roster row whose e-mail is nonempty whitespace passes the
dedup filter whatever the ledger holds (the raw e-mail is truthy while
its normalisation, the empty string, can never be in the loaded set), so
when its render succeeds a certificate is produced and a send to the
whitespace address is attempted. -/
theorem claim_C10_whitespace_email_attempted
    (file : LedgerFile) (payload : List (Option CsvRow))
    (renderOk sendOk : Participant → Bool) (p : Participant)
    (hp : p ∈ ((decodeRows payload).1).map rowToParticipant)
    (hne : p.email ≠ [])
    (hws : ∀ c ∈ p.email, jsIsSpace c = true)
    (hrp : renderOk p = true) :
    p ∈ (runPipeline file payload renderOk sendOk).newParticipants ∧
    (⟨p, pdfPath p⟩ : Cert) ∈ (runPipeline file payload renderOk sendOk).certificates ∧
    p.email ∈ attemptEvents (runPipeline file payload renderOk sendOk).trace := by
  have hkey : jsTrim (jsToLower p.email) = [] := normEmail_of_all_space hws
  have hnotin : jsTrim (jsToLower p.email) ∉ loadSentEmails file := by
    rw [hkey, loadSentEmails_eq_parse]
    exact nil_not_mem_parseLedger _
  have hmem0 : p ∈ (lerCSV file payload).1 := mem_filterNew.mpr ⟨hp, hne, hnotin⟩
  have hcert0 : (⟨p, pdfPath p⟩ : Cert) ∈
      (gerarCertificados renderOk (lerCSV file payload).1).1 := by
    rw [gerar_fst]
    exact List.mem_map.mpr ⟨p, List.mem_filter.mpr ⟨hmem0, hrp⟩, rfl⟩
  refine ⟨?_, ?_, ?_⟩
  · rw [runPipeline_newParticipants]
    exact hmem0
  · rw [runPipeline_certificates]
    exact hcert0
  · rw [runPipeline_trace, attemptEvents_append, attemptEvents_gerar, attemptEvents_enviar]
    apply List.mem_append.mpr
    right
    exact List.mem_map.mpr ⟨⟨p, pdfPath p⟩, hcert0, rfl⟩

/-- C10 witness: a single-space e-mail cell, with an unrelated entry in
the ledger, is rendered and a send to the space address is attempted. -/
theorem claim_C10_witness :
    (⟨[], [], [], [' ']⟩ : Participant) ∈
      (runPipeline (some ("bob@x\n".toList)) [some wsRow]
        (fun _ => true) (fun _ => true)).newParticipants ∧
    (⟨⟨[], [], [], [' ']⟩, pdfPath ⟨[], [], [], [' ']⟩⟩ : Cert) ∈
      (runPipeline (some ("bob@x\n".toList)) [some wsRow]
        (fun _ => true) (fun _ => true)).certificates ∧
    ([' '] : JsString) ∈ attemptEvents
      (runPipeline (some ("bob@x\n".toList)) [some wsRow]
        (fun _ => true) (fun _ => true)).trace :=
  claim_C10_whitespace_email_attempted (some ("bob@x\n".toList)) [some wsRow]
    (fun _ => true) (fun _ => true) ⟨[], [], [], [' ']⟩
    (by decide) (by decide) (by decide) rfl

/-- C2 (amended): a participant is retained for rendering and dispatch
exactly when it parses from the payload with a nonempty raw e-mail whose
normalisation is absent from the loaded ledger set; in particular the
ledger line alice at example.com makes the padded mixed-case roster
variant of that address a duplicate that is dropped. -/
theorem claim_C2_dedup_filter_semantics
    (file : LedgerFile) (payload : List (Option CsvRow))
    (renderOk sendOk : Participant → Bool) (p : Participant) :
    (p ∈ (runPipeline file payload renderOk sendOk).newParticipants ↔
      p ∈ ((decodeRows payload).1).map rowToParticipant ∧ p.email ≠ [] ∧
        jsTrim (jsToLower p.email) ∉ loadSentEmails file) ∧
    filterNew (loadSentEmails (some ("alice@example.com\n".toList)))
      [⟨[], "Alice".toList, [], "  Alice@Example.com ".toList⟩] = [] := by
  constructor
  · rw [runPipeline_newParticipants]
    exact mem_filterNew
  · decide

/-- C2 counterexample: a participant with an empty e-mail is absent from
every loaded ledger set, so the spec wording retains it, but the filter
of the source drops it on the truthiness test. -/
theorem claim_C2_counterexample :
    specRetain [] [⟨[], [], [], []⟩] ≠ filterNew [] [⟨[], [], [], []⟩] := by
  decide

/-- C1 (amended): over a well-formed ledger and a roster whose e-mails
are empty or normalise to nonempty newline-free strings, if every render
and send of run 1 succeeds then run 2 over the unchanged roster retains
nobody, dispatches nothing and emits no events at all. -/
theorem claim_C1_idempotent_across_runs
    (file : LedgerFile) (payload : List (Option CsvRow))
    (renderOk sendOk renderOk2 sendOk2 : Participant → Bool)
    (hwf : LedgerWF file)
    (hgood : ∀ p ∈ ((decodeRows payload).1).map rowToParticipant, GoodEmail p)
    (hrender : ∀ p, renderOk p = true)
    (hsend : ∀ p, sendOk p = true) :
    (runPipeline (runPipeline file payload renderOk sendOk).ledger payload
      renderOk2 sendOk2).newParticipants = [] ∧
    (runPipeline (runPipeline file payload renderOk sendOk).ledger payload
      renderOk2 sendOk2).certificates = [] ∧
    (runPipeline (runPipeline file payload renderOk sendOk).ledger payload
      renderOk2 sendOk2).trace = [] := by
  have h := filterNew_after_run_nil file payload renderOk sendOk hwf hgood hrender hsend
  refine ⟨?_, ?_, ?_⟩
  · rw [runPipeline_newParticipants]
    exact h
  · rw [runPipeline_certificates, h]
    rfl
  · rw [runPipeline_trace, h]
    rfl

/-- C1 counterexample: a roster whose only e-mail is a single space, with
every render and send succeeding, still dispatches and sends on the
second run: the committed ledger line is blank, is filtered out on
reload, and the whitespace e-mail passes the filter again. -/
theorem claim_C1_counterexample :
    (runPipeline (runPipeline none [some wsRow] (fun _ => true) (fun _ => true)).ledger
      [some wsRow] (fun _ => true) (fun _ => true)).certificates ≠ [] ∧
    sentEvents (runPipeline (runPipeline none [some wsRow] (fun _ => true) (fun _ => true)).ledger
      [some wsRow] (fun _ => true) (fun _ => true)).trace ≠ [] := by
  refine ⟨by decide, by decide⟩

/-- C1 witness: one ordinary roster row against an initially absent
ledger; run 2 retains, dispatches and sends nothing. -/
theorem claim_C1_witness :
    (runPipeline (runPipeline none [some goodRow] (fun _ => true) (fun _ => true)).ledger
      [some goodRow] (fun _ => true) (fun _ => true)).newParticipants = [] ∧
    (runPipeline (runPipeline none [some goodRow] (fun _ => true) (fun _ => true)).ledger
      [some goodRow] (fun _ => true) (fun _ => true)).certificates = [] ∧
    (runPipeline (runPipeline none [some goodRow] (fun _ => true) (fun _ => true)).ledger
      [some goodRow] (fun _ => true) (fun _ => true)).trace = [] :=
  claim_C1_idempotent_across_runs none [some goodRow]
    (fun _ => true) (fun _ => true) (fun _ => true) (fun _ => true)
    ⟨[], rfl, fun l hl => absurd hl (List.not_mem_nil l)⟩
    (fun p hp => by
      have hp2 : p = rowToParticipant goodRow := by
        simpa [decodeRows] using hp
      subst hp2
      exact Or.inr ⟨by decide, by decide⟩)
    (fun _ => rfl) (fun _ => rfl)
